import Mathlib

/-!
Verification of the TCGA-Tools metadata/download/annotation pipeline.

Shallow embedding of the parts of the repository the claims are about:
  * `tcga_tools/downloader.py` : `_robust_download_single` (retrying,
    size-verified, atomically-renamed single-file download);
  * `tcga_tools/api.py` : `GDCClient.paged_query` (pagination with a
    zero-hit termination guard and a 400-without-fields fallback);
  * `tcga_tools.py` : `process_clinical_data_json` (survival label
    derivation), `postprocess_slides` (slide filename tokenization),
    `create_final_survival_annotations_days` and
    `create_separate_classification_annotations` (inner joins);
  * `tcga_tools/grouping.py` : `build_patient_groups`;
  * `tcga_tools/utils.py` : `ensure_case_sample_columns`.
-/

namespace TCGATools

/-! ## Downloader model (`_robust_download_single`)

The local filesystem is reduced to the two paths the function touches:
the final target path and its temporary sibling (`target + ".part"`).
A file is represented by its size in bytes (`Option Nat`, `none` =
absent).  The behaviour of one `client.download_single` call into the
temporary path is an oracle value per attempt index:

  * `delivered n`  : the transfer ran to completion and the temporary
    file holds `n` bytes (the server may still have sent fewer bytes
    than expected — verification is the caller's job);
  * `netErr part`  : a transient network/stream exception
    (`ChunkedEncodingError`, `ProtocolError`, `IncompleteRead`,
    `ConnectionError`, `ReadTimeout`), leaving `part` bytes in the
    temporary file (`none` when it failed before the file was opened);
  * `otherErr part`: any other exception.

The IOError raised by the size check is *not* one of the five
transient exception classes caught by the retry arm (requests'
`ConnectionError` is a subclass of `IOError`, not a superclass), so a
size mismatch lands in the generic `except Exception` arm.
-/

/-- The two filesystem locations `_robust_download_single` touches:
the canonical target path and its `.part` temporary sibling.  Each
holds `some size` when a file is present. -/
structure FS where
  target : Option Nat
  tmp : Option Nat
deriving DecidableEq, Repr

/-- Outcome of one `client.download_single` call writing the temporary
file (one network request per attempt). -/
inductive Outcome where
  | delivered (n : Nat)
  | netErr (part : Option Nat)
  | otherErr (part : Option Nat)
deriving DecidableEq, Repr

/-- Result of a run: reported success, final filesystem state, and the
number of network (download) requests issued. -/
structure RunResult where
  ok : Bool
  fs : FS
  requests : Nat
deriving DecidableEq, Repr

/-- The size verification of `_robust_download_single`: with no
expected size any completed transfer is accepted; otherwise the byte
count must match exactly. -/
def sizeOk (expected : Option Nat) (n : Nat) : Bool :=
  match expected with
  | none => true
  | some e => decide (n = e)

/-- The `skip_existing` check: skip (and report success) when the flag
is set, the target exists, and either no expected size is known or the
existing file's size equals it. -/
def skipCheck (skip : Bool) (expected : Option Nat) (target : Option Nat) : Bool :=
  match skip, target with
  | true, some s =>
    match expected with
    | none => true
    | some e => decide (e = s)
  | _, _ => false

/-- The retry loop of `_robust_download_single` (`for attempt in
range(1, max_retries + 1)`), with `remaining` attempts left and
`idx` the 0-based index of the next oracle entry.  Returns the run
result together with the trace of filesystem states after each
primitive mutation (temporary-file write, unlink, atomic replace). -/
def attemptLoop (expected : Option Nat) (oracle : Nat → Outcome) :
    Nat → Nat → FS → RunResult × List FS
  | 0, _, fs => (⟨false, fs, 0⟩, [])
  | r + 1, idx, fs =>
    match oracle idx with
    | .delivered n =>
      -- client.download_single wrote the whole stream into tmp
      let fs1 : FS := ⟨fs.target, some n⟩
      if sizeOk expected n then
        -- os.replace(tmp, target): atomic rename
        let fs2 : FS := ⟨some n, none⟩
        (⟨true, fs2, 1⟩, [fs1, fs2])
      else
        -- raise IOError → generic `except Exception`: unlink tmp, return False
        let fs2 : FS := ⟨fs.target, none⟩
        (⟨false, fs2, 1⟩, [fs1, fs2])
    | .netErr part =>
      -- transient exception: unlink tmp, then retry unless attempts exhausted
      let fs1 : FS := ⟨fs.target, part⟩
      let fs2 : FS := ⟨fs.target, none⟩
      if r = 0 then (⟨false, fs2, 1⟩, [fs1, fs2])
      else
        let res := attemptLoop expected oracle r (idx + 1) fs2
        (⟨res.1.ok, res.1.fs, res.1.requests + 1⟩, fs1 :: fs2 :: res.2)
    | .otherErr part =>
      -- non-transient exception: unlink tmp, return False immediately
      let fs1 : FS := ⟨fs.target, part⟩
      let fs2 : FS := ⟨fs.target, none⟩
      (⟨false, fs2, 1⟩, [fs1, fs2])

/-- `_robust_download_single(client, fid, target_path, expected_size,
max_retries, skip_existing)` over the two-path filesystem model.
Returns the run result and the trace of filesystem states (head =
initial state). -/
def robustDownloadSingle (skip : Bool) (expected : Option Nat) (maxRetries : Nat)
    (oracle : Nat → Outcome) (fs0 : FS) : RunResult × List FS :=
  if skipCheck skip expected fs0.target then
    (⟨true, fs0, 0⟩, [fs0])
  else
    -- clean stale tmp before the loop
    let fs1 : FS := ⟨fs0.target, none⟩
    let r := attemptLoop expected oracle maxRetries 0 fs1
    (r.1, fs0 :: fs1 :: r.2)

/-- Structural facts about the retry loop: (1) every filesystem state in
its trace keeps the target path either unchanged or holding a completed,
size-verified transfer; (2) a failing run ends with the target unchanged
and the temporary file deleted; (3) the final state appears in the trace
(or is the entry state). -/
theorem attemptLoop_spec (expected : Option Nat) (oracle : Nat → Outcome) :
    ∀ (r idx : Nat) (fs : FS), fs.tmp = none →
      (∀ s ∈ (attemptLoop expected oracle r idx fs).2,
          s.target = fs.target ∨
            ∃ n, s.target = some n ∧ sizeOk expected n = true ∧
              ∃ i, oracle i = Outcome.delivered n)
      ∧ ((attemptLoop expected oracle r idx fs).1.ok = false →
            (attemptLoop expected oracle r idx fs).1.fs = ⟨fs.target, none⟩)
      ∧ ((attemptLoop expected oracle r idx fs).1.fs ∈ (attemptLoop expected oracle r idx fs).2 ∨
            (attemptLoop expected oracle r idx fs).1.fs = fs)
  | 0, idx, fs, htmp => by
    refine ⟨?_, ?_, ?_⟩
    · intro s hs; simp [attemptLoop] at hs
    · intro _
      cases fs with
      | mk t tm => simp only [FS.mk.injEq]; simp_all [attemptLoop]
    · right; simp [attemptLoop]
  | r + 1, idx, fs, htmp => by
    rcases ho : oracle idx with n | part | part
    · by_cases hsz : sizeOk expected n = true
      · refine ⟨?_, ?_, ?_⟩
        · intro s hs
          simp [attemptLoop, ho, hsz] at hs
          rcases hs with h | h
          · exact Or.inl (by simp [h])
          · exact Or.inr ⟨n, by simp [h], hsz, idx, ho⟩
        · intro hok; simp [attemptLoop, ho, hsz] at hok
        · left; simp [attemptLoop, ho, hsz]
      · refine ⟨?_, ?_, ?_⟩
        · intro s hs
          simp [attemptLoop, ho, hsz] at hs
          rcases hs with h | h <;> exact Or.inl (by simp [h])
        · intro _; simp [attemptLoop, ho, hsz]
        · left; simp [attemptLoop, ho, hsz]
    · by_cases hr : r = 0
      · subst hr
        refine ⟨?_, ?_, ?_⟩
        · intro s hs
          simp [attemptLoop, ho] at hs
          rcases hs with h | h <;> exact Or.inl (by simp [h])
        · intro _; simp [attemptLoop, ho]
        · left; simp [attemptLoop, ho]
      · have IH := attemptLoop_spec expected oracle r (idx + 1) ⟨fs.target, none⟩ rfl
        refine ⟨?_, ?_, ?_⟩
        · intro s hs
          simp only [attemptLoop, ho, hr, if_false, List.mem_cons] at hs
          rcases hs with h | h | h
          · exact Or.inl (by simp [h])
          · exact Or.inl (by simp [h])
          · rcases IH.1 s h with h2 | h2
            · exact Or.inl h2
            · exact Or.inr h2
        · intro hok
          simp only [attemptLoop, ho, hr, if_false] at hok ⊢
          exact IH.2.1 hok
        · simp only [attemptLoop, ho, hr, if_false, List.mem_cons]
          rcases IH.2.2 with h | h
          · left; right; right; exact h
          · left; right; left; exact h
    · refine ⟨?_, ?_, ?_⟩
      · intro s hs
        simp [attemptLoop, ho] at hs
        rcases hs with h | h <;> exact Or.inl (by simp [h])
      · intro _; simp [attemptLoop, ho]
      · left; simp [attemptLoop, ho]

/-- C1: for every run of `_robust_download_single` — including runs that
fail or are interrupted mid-transfer (every intermediate filesystem state
is in the trace) — the target path is never a partial download: at every
traced state the target is either exactly as it was initially, or holds
the full byte count of a transfer that ran to completion and passed the
size verification (when an expected size is known), placed there by the
atomic rename; moreover a failing run ends with the temporary file
deleted and the target unchanged, and the final state is in the trace. -/
theorem downloader_target_intact
    (skip : Bool) (expected : Option Nat) (maxRetries : Nat)
    (oracle : Nat → Outcome) (fs0 : FS) :
    (∀ s ∈ (robustDownloadSingle skip expected maxRetries oracle fs0).2,
        s.target = fs0.target ∨
          ∃ n, s.target = some n ∧ sizeOk expected n = true ∧
            ∃ i, oracle i = Outcome.delivered n)
    ∧ ((robustDownloadSingle skip expected maxRetries oracle fs0).1.ok = false →
        (robustDownloadSingle skip expected maxRetries oracle fs0).1.fs = ⟨fs0.target, none⟩)
    ∧ (robustDownloadSingle skip expected maxRetries oracle fs0).1.fs ∈
        (robustDownloadSingle skip expected maxRetries oracle fs0).2 := by
  by_cases hsk : skipCheck skip expected fs0.target = true
  · have hrw : robustDownloadSingle skip expected maxRetries oracle fs0 =
        (⟨true, fs0, 0⟩, [fs0]) := by
      simp [robustDownloadSingle, hsk]
    rw [hrw]
    refine ⟨?_, ?_, ?_⟩
    · intro s hs
      rcases List.mem_singleton.mp hs with rfl
      exact Or.inl rfl
    · intro hok; cases hok
    · exact List.mem_singleton.mpr rfl
  · have h := attemptLoop_spec expected oracle maxRetries 0 ⟨fs0.target, none⟩ rfl
    have hrw : robustDownloadSingle skip expected maxRetries oracle fs0 =
        ((attemptLoop expected oracle maxRetries 0 ⟨fs0.target, none⟩).1,
          fs0 :: (⟨fs0.target, none⟩ : FS) ::
            (attemptLoop expected oracle maxRetries 0 ⟨fs0.target, none⟩).2) := by
      simp [robustDownloadSingle, hsk]
    rw [hrw]
    refine ⟨?_, ?_, ?_⟩
    · intro s hs
      rcases List.mem_cons.mp hs with rfl | hs1
      · exact Or.inl rfl
      · rcases List.mem_cons.mp hs1 with rfl | hs2
        · exact Or.inl rfl
        · rcases h.1 s hs2 with h2 | h2
          · exact Or.inl h2
          · exact Or.inr h2
    · intro hok
      exact h.2.1 hok
    · rcases h.2.2 with h1 | h1
      · exact List.mem_cons_of_mem _ (List.mem_cons_of_mem _ h1)
      · rw [h1]
        exact List.mem_cons_of_mem _ (List.mem_cons_self _ _)

/-- Concrete oracle for the C1 witness: every attempt fails with a
transient network error after 3 bytes were written to the temporary
file. -/
def oracleNet : Nat → Outcome := fun _ => Outcome.netErr (some 3)

/-- C1 witness: two attempts that both die mid-stream leave the
pre-existing 7-byte target untouched with the temporary file deleted, and
the mid-transfer state (3 bytes in the temporary file) has an unchanged
target. -/
theorem downloader_target_intact_witness :
    (robustDownloadSingle false (some 10) 2 oracleNet ⟨some 7, none⟩).1.fs =
      ⟨(⟨some 7, none⟩ : FS).target, none⟩ ∧
    ((⟨some 7, some 3⟩ : FS).target = (⟨some 7, none⟩ : FS).target ∨
      ∃ n, (⟨some 7, some 3⟩ : FS).target = some n ∧ sizeOk (some 10) n = true ∧
        ∃ i, oracleNet i = Outcome.delivered n) :=
  ⟨(downloader_target_intact false (some 10) 2 oracleNet ⟨some 7, none⟩).2.1
      (by decide),
   (downloader_target_intact false (some 10) 2 oracleNet ⟨some 7, none⟩).1
      ⟨some 7, some 3⟩ (by decide)⟩

/-- Concrete oracle for C2: every attempt completes the transfer but
delivers only 4 bytes. -/
def oracleShort : Nat → Outcome := fun _ => Outcome.delivered 4

/-- C2 counterexample: with expected size 10, a transfer that completes
with 4 bytes, and `max_retries = 5`, the run issues exactly one network
request and returns failure — the size mismatch is *not* retried (the
claim says it is retried up to the fixed maximum attempt count).  The
raised `IOError` is not one of the five transient exception classes, so
it takes the generic `except Exception` arm, which aborts immediately. -/
theorem size_mismatch_not_retried_cex :
    oracleShort 0 = Outcome.delivered 4 ∧ sizeOk (some 10) 4 = false ∧
    (robustDownloadSingle false (some 10) 5 oracleShort ⟨none, none⟩).1 =
      ⟨false, ⟨none, none⟩, 1⟩ := by
  refine ⟨rfl, by decide, by decide⟩

/-- C2 (amended): whenever an attempt completes the transfer but the
downloaded size differs from the known expected size, the attempt is
treated as a failure — success is never reported, the temporary file is
deleted and the target path is untouched — but the run aborts immediately
after the first mismatch with exactly one network request issued; it is
not retried, even when further attempts remain. -/
theorem size_mismatch_fails_immediately
    (skip : Bool) (e n maxRetries : Nat) (oracle : Nat → Outcome) (fs0 : FS)
    (hskip : skipCheck skip (some e) fs0.target = false)
    (h0 : oracle 0 = Outcome.delivered n) (hne : n ≠ e) (hmr : 1 ≤ maxRetries) :
    robustDownloadSingle skip (some e) maxRetries oracle fs0 =
      (⟨false, ⟨fs0.target, none⟩, 1⟩,
        [fs0, ⟨fs0.target, none⟩, ⟨fs0.target, some n⟩, ⟨fs0.target, none⟩]) := by
  obtain ⟨m, rfl⟩ : ∃ m, maxRetries = m + 1 := ⟨maxRetries - 1, by omega⟩
  simp [robustDownloadSingle, hskip, attemptLoop, h0, sizeOk, hne]

/-- C2 witness: the amended statement at expected size 10, delivered
size 4, five allowed attempts. -/
theorem size_mismatch_fails_immediately_witness :
    robustDownloadSingle false (some 10) 5 oracleShort ⟨none, none⟩ =
      (⟨false, ⟨(⟨none, none⟩ : FS).target, none⟩, 1⟩,
        [⟨none, none⟩, ⟨(⟨none, none⟩ : FS).target, none⟩,
          ⟨(⟨none, none⟩ : FS).target, some 4⟩, ⟨(⟨none, none⟩ : FS).target, none⟩]) :=
  size_mismatch_fails_immediately false 10 4 5 oracleShort ⟨none, none⟩
    (by decide) rfl (by decide) (by decide)

/-- C3: when the target already exists and `skip_existing` is set, the
call reports success with zero network requests if no expected size is
given or the existing size matches; when the existing size differs from
the expected size, the call behaves exactly as a fresh download
(`skip_existing = False`), i.e. it proceeds to re-download. -/
theorem skip_existing_behavior
    (maxRetries : Nat) (oracle : Nat → Outcome) (fs0 : FS) (s : Nat)
    (hex : fs0.target = some s) :
    robustDownloadSingle true none maxRetries oracle fs0 = (⟨true, fs0, 0⟩, [fs0]) ∧
    robustDownloadSingle true (some s) maxRetries oracle fs0 = (⟨true, fs0, 0⟩, [fs0]) ∧
    ∀ e, e ≠ s →
      robustDownloadSingle true (some e) maxRetries oracle fs0 =
        robustDownloadSingle false (some e) maxRetries oracle fs0 := by
  refine ⟨?_, ?_, ?_⟩
  · simp [robustDownloadSingle, skipCheck, hex]
  · simp [robustDownloadSingle, skipCheck, hex]
  · intro e he
    simp [robustDownloadSingle, skipCheck, hex, he]

/-- C3 witness: a pre-existing 3-byte target with matching expected size
is skipped with zero requests; with no expected size it is skipped as
well; with expected size 5 the run equals the `skip_existing = False`
run. -/
theorem skip_existing_behavior_witness :
    robustDownloadSingle true none 4 oracleShort ⟨some 3, none⟩ =
      (⟨true, ⟨some 3, none⟩, 0⟩, [⟨some 3, none⟩]) ∧
    robustDownloadSingle true (some 3) 4 oracleShort ⟨some 3, none⟩ =
      (⟨true, ⟨some 3, none⟩, 0⟩, [⟨some 3, none⟩]) ∧
    robustDownloadSingle true (some 5) 4 oracleShort ⟨some 3, none⟩ =
      robustDownloadSingle false (some 5) 4 oracleShort ⟨some 3, none⟩ :=
  ⟨(skip_existing_behavior 4 oracleShort ⟨some 3, none⟩ 3 rfl).1,
   (skip_existing_behavior 4 oracleShort ⟨some 3, none⟩ 3 rfl).2.1,
   (skip_existing_behavior 4 oracleShort ⟨some 3, none⟩ 3 rfl).2.2 5 (by decide)⟩

/-! ## Metadata client model (`GDCClient.paged_query`)

The loop body of `paged_query` issues a POST with the current `from`
offset and the current `fields` string (`fields_str : Option String`,
dropped after a handled 400), extends the accumulated hit list, reads
the server-reported `total`, advances `from` by `size`, and stops as
soon as the cumulative count reaches `total` or a page comes back with
zero hits.  The transport is a function from (fields, offset) to either
an HTTP error or a page `(hits, total)`.  The loop is embedded with
explicit fuel: `none` means the fuel ran out before the loop stopped. -/

/-- An HTTP error as far as `paged_query` inspects it: its status code. -/
structure HErr where
  status : Nat
deriving DecidableEq, Repr

/-- The `while True` loop of `GDCClient.paged_query`, fuel-indexed.
Arguments after the fuel: the current `fields_str`, the current `from`
offset, and the hits accumulated so far.  On an HTTP 400 while an
explicit field list is set, the field list is dropped and the same page
is requested again; any other error is raised (`Except.error`). -/
def pagedQueryAux {H : Type} (transport : Option String → Nat → Except HErr (List H × Nat))
    (size : Nat) : Nat → Option String → Nat → List H → Option (Except HErr (List H))
  | 0, _, _, _ => none
  | fuel + 1, flds, from_, acc =>
    match transport flds from_ with
    | .error e =>
      if e.status = 400 ∧ flds.isSome then
        pagedQueryAux transport size fuel none from_ acc
      else some (.error e)
    | .ok (hits, total) =>
      let acc2 := acc ++ hits
      if total ≤ acc2.length ∨ hits.length = 0 then some (.ok acc2)
      else pagedQueryAux transport size fuel flds (from_ + size) acc2

/-- A transport for a server that never errors: each request at offset
`f` is answered by the pure page function `server f`. -/
def okTransport {H : Type} (server : Nat → List H × Nat) :
    Option String → Nat → Except HErr (List H × Nat) :=
  fun _ f => .ok (server f)

/-- One-step unfolding of `pagedQueryAux` on a successful page. -/
theorem pagedQueryAux_ok_eq {H : Type}
    (transport : Option String → Nat → Except HErr (List H × Nat))
    (size fuel : Nat) (flds : Option String) (from_ : Nat) (acc hits : List H)
    (total : Nat) (hp : transport flds from_ = Except.ok (hits, total)) :
    pagedQueryAux transport size (fuel + 1) flds from_ acc =
      if total ≤ (acc ++ hits).length ∨ hits.length = 0
      then some (Except.ok (acc ++ hits))
      else pagedQueryAux transport size fuel flds (from_ + size) (acc ++ hits) := by
  simp only [pagedQueryAux, hp]

/-- One-step unfolding of `pagedQueryAux` on an HTTP error. -/
theorem pagedQueryAux_err_eq {H : Type}
    (transport : Option String → Nat → Except HErr (List H × Nat))
    (size fuel : Nat) (flds : Option String) (from_ : Nat) (acc : List H)
    (e : HErr) (hp : transport flds from_ = Except.error e) :
    pagedQueryAux transport size (fuel + 1) flds from_ acc =
      if e.status = 400 ∧ flds.isSome
      then pagedQueryAux transport size fuel none from_ acc
      else some (Except.error e) := by
  simp only [pagedQueryAux, hp]

/-- Termination core, no-fields state: if no-fields requests never error
and every page at offset `≥ N` is empty, the loop finishes with enough
fuel. -/
theorem pagedQueryAux_ok_noFields {H : Type}
    (transport : Option String → Nat → Except HErr (List H × Nat)) (size N : Nat)
    (hok : ∀ f, ∃ p, transport none f = Except.ok p)
    (hempty : ∀ v f p, N ≤ f → transport v f = Except.ok p → p.1 = []) :
    ∀ fuel from_ acc, 1 ≤ fuel → N ≤ from_ + (fuel - 1) * size →
      ∃ hits, pagedQueryAux transport size fuel none from_ acc = some (Except.ok hits)
  | 0, _, _, h1, _ => absurd h1 (by omega)
  | fuel + 1, from_, acc, _, hbound => by
    obtain ⟨⟨hits, total⟩, hp⟩ := hok from_
    rw [pagedQueryAux_ok_eq transport size fuel none from_ acc hits total hp]
    by_cases hc : total ≤ (acc ++ hits).length ∨ hits.length = 0
    · rw [if_pos hc]; exact ⟨acc ++ hits, rfl⟩
    · rw [if_neg hc]
      have hfrom : from_ < N := by
        by_contra hge
        push_neg at hge
        have hh : hits = [] := hempty none from_ (hits, total) hge hp
        exact hc (Or.inr (by rw [hh]; rfl))
      have hf1 : 1 ≤ fuel := by
        rcases Nat.eq_zero_or_pos fuel with h0 | h0
        · subst h0; simp at hbound; omega
        · exact h0
      have hrec : N ≤ from_ + size + (fuel - 1) * size := by
        obtain ⟨f2, rfl⟩ : ∃ f2, fuel = f2 + 1 := ⟨fuel - 1, by omega⟩
        have hmul : (f2 + 1) * size = size + f2 * size := by
          rw [Nat.succ_mul]; omega
        simp only [Nat.add_sub_cancel] at hbound ⊢
        rw [hmul] at hbound
        omega
      exact pagedQueryAux_ok_noFields transport size N hok hempty fuel (from_ + size)
        (acc ++ hits) hf1 hrec

/-- Termination core, any fields state: additionally every error on a
fields-carrying request has status 400, so at most one fallback step is
taken before the no-fields core applies. -/
theorem pagedQueryAux_ok_any {H : Type}
    (transport : Option String → Nat → Except HErr (List H × Nat)) (size N : Nat)
    (hok : ∀ f, ∃ p, transport none f = Except.ok p)
    (h400 : ∀ v f e, transport (some v) f = Except.error e → e.status = 400)
    (hempty : ∀ v f p, N ≤ f → transport v f = Except.ok p → p.1 = []) :
    ∀ fuel flds from_ acc, 2 ≤ fuel → N ≤ from_ + (fuel - 2) * size →
      ∃ hits, pagedQueryAux transport size fuel flds from_ acc = some (Except.ok hits)
  | 0, _, _, _, h2, _ => absurd h2 (by omega)
  | fuel + 1, flds, from_, acc, h2, hbound => by
    match flds with
    | none =>
      refine pagedQueryAux_ok_noFields transport size N hok hempty (fuel + 1) from_ acc
        (by omega) ?_
      have hmono : (fuel + 1 - 2) * size ≤ (fuel + 1 - 1) * size :=
        Nat.mul_le_mul_right size (by omega)
      omega
    | some v =>
      rcases htr : transport (some v) from_ with e | p
      · have h4 : e.status = 400 := h400 v from_ e htr
        rw [pagedQueryAux_err_eq transport size fuel (some v) from_ acc e htr,
          if_pos ⟨h4, rfl⟩]
        refine pagedQueryAux_ok_noFields transport size N hok hempty fuel from_ acc
          (by omega) ?_
        have heq : fuel + 1 - 2 = fuel - 1 := by omega
        rw [heq] at hbound
        exact hbound
      · rcases p with ⟨hits, total⟩
        rw [pagedQueryAux_ok_eq transport size fuel (some v) from_ acc hits total htr]
        by_cases hc : total ≤ (acc ++ hits).length ∨ hits.length = 0
        · rw [if_pos hc]; exact ⟨acc ++ hits, rfl⟩
        · rw [if_neg hc]
          have hfrom : from_ < N := by
            by_contra hge
            push_neg at hge
            have hh : hits = [] := hempty (some v) from_ (hits, total) hge htr
            exact hc (Or.inr (by rw [hh]; rfl))
          have hf2 : 2 ≤ fuel := by
            rcases Nat.lt_or_ge fuel 2 with h0 | h0
            · interval_cases fuel <;> simp at hbound <;> omega
            · exact h0
          have hrec : N ≤ from_ + size + (fuel - 2) * size := by
            obtain ⟨f2, rfl⟩ : ∃ f2, fuel = f2 + 2 := ⟨fuel - 2, by omega⟩
            have hmul : (f2 + 1) * size = size + f2 * size := by
              rw [Nat.succ_mul]; omega
            simp only [show f2 + 2 + 1 - 2 = f2 + 1 from by omega,
              Nat.add_sub_cancel] at hbound ⊢
            rw [hmul] at hbound
            omega
          exact pagedQueryAux_ok_any transport size N hok h400 hempty fuel (some v)
            (from_ + size) (acc ++ hits) hf2 hrec

/-- C8: `paged_query` terminates for every server that will only ever
deliver finitely many hits (all pages at offsets `≥ N` are empty), even
when the reported totals are inconsistent with the hits actually
returned: `N + 3` units of fuel always suffice and the loop returns
normally.  Moreover the loop stops immediately on any page whose hits
bring the cumulative count up to the reported total, and on any page
with zero hits. -/
theorem paged_query_terminates {H : Type} (server : Nat → List H × Nat)
    (size N : Nat) (flds : Option String)
    (hsz : 0 < size) (hN : ∀ f, N ≤ f → (server f).1 = []) :
    (∃ hits, pagedQueryAux (okTransport server) size (N + 3) flds 0 [] =
      some (Except.ok hits)) ∧
    (∀ fuel flds2 from_ acc,
      (server from_).2 ≤ (acc ++ (server from_).1).length ∨ (server from_).1 = [] →
      pagedQueryAux (okTransport server) size (fuel + 1) flds2 from_ acc =
        some (Except.ok (acc ++ (server from_).1))) := by
  constructor
  · refine pagedQueryAux_ok_any (okTransport server) size N
      (fun f => ⟨server f, rfl⟩)
      (fun v f e h => by simp [okTransport] at h)
      (fun v f p hf hp => by
        simp only [okTransport, Except.ok.injEq] at hp
        rw [← hp]; exact hN f hf)
      (N + 3) flds 0 [] (by omega) ?_
    rw [Nat.zero_add]
    exact le_trans (Nat.le_succ N) (Nat.le_mul_of_pos_right (N + 1) hsz)
  · intro fuel flds2 from_ acc hstop
    rcases hsv : server from_ with ⟨hits, total⟩
    rw [hsv] at hstop
    have hcond : total ≤ (acc ++ hits).length ∨ hits.length = 0 := by
      rcases hstop with h | h
      · exact Or.inl h
      · exact Or.inr (by rw [show hits = [] from h]; rfl)
    rw [pagedQueryAux_ok_eq (okTransport server) size fuel flds2 from_ acc hits total
      (by simp [okTransport, hsv]), if_pos hcond]

/-- C8 witness: a server that always answers with an empty page and
total 0 terminates from fuel 3, and the loop stops immediately on a
zero-hit page. -/
def emptyServer : Nat → List Nat × Nat := fun _ => ([], 0)

/-- C8 witness statement: the termination theorem applied to
`emptyServer` with `N = 0`, `size = 1`. -/
theorem paged_query_terminates_witness :
    (∃ hits, pagedQueryAux (okTransport emptyServer) 1 3 none 0 [] =
      some (Except.ok hits)) ∧
    pagedQueryAux (okTransport emptyServer) 1 5 (some "fields") 4 [7] =
      some (Except.ok ([7] ++ (emptyServer 4).1)) :=
  ⟨(paged_query_terminates emptyServer 1 0 none (by decide) (fun f _ => rfl)).1,
   (paged_query_terminates emptyServer 1 0 (some "fields") (by decide)
      (fun f _ => rfl)).2 4 (some "fields") 4 [7] (Or.inr rfl)⟩

/-- C9: on an HTTP 400 received for a request that carried an explicit
field list, `paged_query` retries the same page exactly once without the
field list (same offset, same accumulated hits) and then proceeds with
whatever the server returns; an error on a request without a field list,
or with any status other than 400, is raised to the caller; consequently
a query against a server whose only errors are 400s on fields-carrying
requests never fails, provided no-fields requests succeed and the server
delivers finitely many hits. -/
theorem paged_query_400_fallback {H : Type}
    (transport : Option String → Nat → Except HErr (List H × Nat)) (size : Nat) :
    (∀ fuel flds from_ acc e,
        transport (some flds) from_ = Except.error e → e.status = 400 →
        pagedQueryAux transport size (fuel + 1) (some flds) from_ acc =
          pagedQueryAux transport size fuel none from_ acc)
    ∧ (∀ fuel flds from_ acc e,
        transport flds from_ = Except.error e → (flds = none ∨ e.status ≠ 400) →
        pagedQueryAux transport size (fuel + 1) flds from_ acc =
          some (Except.error e))
    ∧ (∀ N, 0 < size →
        (∀ f, ∃ p, transport none f = Except.ok p) →
        (∀ v f e, transport (some v) f = Except.error e → e.status = 400) →
        (∀ v f p, N ≤ f → transport v f = Except.ok p → p.1 = []) →
        ∀ flds, ∃ hits,
          pagedQueryAux transport size (N + 3) flds 0 [] = some (Except.ok hits)) := by
  refine ⟨?_, ?_, ?_⟩
  · intro fuel flds from_ acc e htr h4
    simp [pagedQueryAux, htr, h4]
  · intro fuel flds from_ acc e htr hcase
    rcases hcase with rfl | hne
    · simp [pagedQueryAux, htr]
    · simp [pagedQueryAux, htr, hne]
  · intro N hsz hok h400 hempty flds
    refine pagedQueryAux_ok_any transport size N hok h400 hempty (N + 3) flds 0 []
      (by omega) ?_
    rw [Nat.zero_add]
    exact le_trans (Nat.le_succ N) (Nat.le_mul_of_pos_right (N + 1) hsz)

/-- Transport for the C9 witness: every fields-carrying request is
rejected with HTTP 400; every no-fields request succeeds with an empty
page. -/
def fbTransport : Option String → Nat → Except HErr (List Nat × Nat) :=
  fun v _ =>
    match v with
    | some _ => .error ⟨400⟩
    | none => .ok ([], 0)

/-- Transport for the C9 witness raise-case: every request fails with
HTTP 500. -/
def errTransport : Option String → Nat → Except HErr (List Nat × Nat) :=
  fun _ _ => .error ⟨500⟩

/-- C9 witness: the 400-with-fields fallback equation, the raise
equation for a 500, and overall success against `fbTransport`. -/
theorem paged_query_400_fallback_witness :
    (pagedQueryAux fbTransport 1 6 (some "fields") 7 [] =
      pagedQueryAux fbTransport 1 5 none 7 []) ∧
    (pagedQueryAux errTransport 1 4 none 2 [] = some (Except.error ⟨500⟩)) ∧
    (∃ hits, pagedQueryAux fbTransport 1 3 (some "fields") 0 [] =
      some (Except.ok hits)) :=
  ⟨(paged_query_400_fallback fbTransport 1).1 5 "fields" 7 [] ⟨400⟩ rfl rfl,
   (paged_query_400_fallback errTransport 1).2.1 3 none 2 [] ⟨500⟩ rfl (Or.inl rfl),
   (paged_query_400_fallback fbTransport 1).2.2 0 (by decide)
     (fun f => ⟨([], 0), rfl⟩)
     (fun v f e h => by
       simp only [fbTransport, Except.error.injEq] at h
       rw [← h])
     (fun v f p hf hp => by
       match v with
       | none =>
         simp only [fbTransport, Except.ok.injEq] at hp
         rw [← hp]
       | some w => simp [fbTransport] at hp)
     (some "fields")⟩

/-! ## Survival label derivation (`process_clinical_data_json`)

One processed clinical record, after the per-record extraction: the
vital status is already stripped and lowercased (or `none`), and the
day counts are floats or `none` (modelled as rationals; a pandas `NaN`
behaves like `none` in every comparison the code makes, since
`NaN > 0` is false and `NaN == "dead"` is false). -/
structure ClinRec where
  vital_status : Option String
  days_to_death : Option ℚ
  days_to_last_follow_up : Option ℚ
deriving DecidableEq, Repr

/-- `x is not None and x > 0` on an optional day count. -/
def posDay (x : Option ℚ) : Bool :=
  match x with
  | some d => decide (0 < d)
  | none => false

/-- `compute_time` of `process_clinical_data_json`. -/
def computeTime (r : ClinRec) : Option ℚ :=
  if r.vital_status = some "dead" then r.days_to_death
  else if r.vital_status = some "alive" then r.days_to_last_follow_up
  else if posDay r.days_to_death then r.days_to_death
  else if posDay r.days_to_last_follow_up then r.days_to_last_follow_up
  else none

/-- `compute_event` of `process_clinical_data_json`. -/
def computeEvent (r : ClinRec) : Option Nat :=
  if r.vital_status = some "dead" then some 1
  else if r.vital_status = some "alive" then some 0
  else if posDay r.days_to_death then some 1
  else if posDay r.days_to_last_follow_up then some 0
  else none

/-- C4: the survival derivation of `process_clinical_data_json`: a dead
case takes its time from days-to-death with event 1; an alive case takes
it from days-to-last-follow-up with event 0; any other vital status falls
back to days-to-death when present and positive (event 1), else to
days-to-last-follow-up when present and positive (event 0), else both
time and event are null. -/
theorem survival_label_derivation (r : ClinRec) :
    (r.vital_status = some "dead" →
      computeTime r = r.days_to_death ∧ computeEvent r = some 1) ∧
    (r.vital_status = some "alive" →
      computeTime r = r.days_to_last_follow_up ∧ computeEvent r = some 0) ∧
    (r.vital_status ≠ some "dead" → r.vital_status ≠ some "alive" →
      (∀ d : ℚ, r.days_to_death = some d → 0 < d →
        computeTime r = some d ∧ computeEvent r = some 1) ∧
      (posDay r.days_to_death = false →
        ∀ d : ℚ, r.days_to_last_follow_up = some d → 0 < d →
          computeTime r = some d ∧ computeEvent r = some 0) ∧
      (posDay r.days_to_death = false → posDay r.days_to_last_follow_up = false →
        computeTime r = none ∧ computeEvent r = none)) := by
  refine ⟨?_, ?_, ?_⟩
  · intro hd
    constructor <;> simp [computeTime, computeEvent, hd]
  · intro ha
    have hd : r.vital_status ≠ some "dead" := by rw [ha]; decide
    constructor <;> simp [computeTime, computeEvent, ha, hd]
  · intro hd ha
    refine ⟨?_, ?_, ?_⟩
    · intro d hsome hpos
      have hp : posDay r.days_to_death = true := by rw [hsome]; simp [posDay, hpos]
      refine ⟨?_, ?_⟩
      · simp only [computeTime, if_neg hd, if_neg ha, hp]
        simpa using hsome
      · simp only [computeEvent, if_neg hd, if_neg ha, hp]
        simp
    · intro hp d hsome hpos
      have hq : posDay r.days_to_last_follow_up = true := by
        rw [hsome]; simp [posDay, hpos]
      refine ⟨?_, ?_⟩
      · simp only [computeTime, if_neg hd, if_neg ha, hp, hq]
        simpa using hsome
      · simp only [computeEvent, if_neg hd, if_neg ha, hp, hq]
        simp
    · intro hp hq
      constructor <;> simp [computeTime, computeEvent, hd, ha, hp, hq]

/-- C4 witness: `vital_status="dead", days_to_death=800` yields time 800,
event 1; `vital_status="alive", days_to_last_follow_up=1200` yields time
1200, event 0; a record with no vital status and neither day field yields
null time and null event. -/
theorem survival_label_derivation_witness :
    (computeTime ⟨some "dead", some 800, none⟩ = some 800 ∧
      computeEvent ⟨some "dead", some 800, none⟩ = some 1) ∧
    (computeTime ⟨some "alive", none, some 1200⟩ = some 1200 ∧
      computeEvent ⟨some "alive", none, some 1200⟩ = some 0) ∧
    (computeTime ⟨none, none, none⟩ = none ∧ computeEvent ⟨none, none, none⟩ = none) :=
  ⟨(survival_label_derivation ⟨some "dead", some 800, none⟩).1 rfl,
   (survival_label_derivation ⟨some "alive", none, some 1200⟩).2.1 rfl,
   ((survival_label_derivation ⟨none, none, none⟩).2.2 (by decide) (by decide)).2.2
     rfl rfl⟩

/-! ## Slide mapping (`postprocess_slides`)

A slide filename is processed as: image-extension check
(`file.lower().endswith(('.svs', '.tiff'))`), `os.path.splitext` (split
at the last dot, unless every character before it is a dot),
`base.split('.', 1)` (split at the first dot), `pre.split('-')`
(hyphen tokenization), positional reassembly. -/

/-- Last index of `'.'` in a character list, if any. -/
def lastDotIdx : List Char → Option Nat
  | [] => none
  | c :: cs =>
    match lastDotIdx cs with
    | some i => some (i + 1)
    | none => if c = '.' then some 0 else none

/-- `os.path.splitext` on a bare filename: split at the last dot when
some character before it is not a dot; otherwise no extension. -/
def splitextChars (cs : List Char) : List Char × List Char :=
  match lastDotIdx cs with
  | none => (cs, [])
  | some i =>
    if (cs.take i).any (fun c => c ≠ '.') then (cs.take i, cs.drop i) else (cs, [])

/-- `base.split('.', 1)` with the Python convention that a base without a
dot gets `post = ""`: returns (pre, post). -/
def splitFirstDot (cs : List Char) : List Char × List Char :=
  if '.' ∈ cs then (cs.takeWhile (fun c => c ≠ '.'), (cs.dropWhile (fun c => c ≠ '.')).tail)
  else (cs, [])

/-- Python `str.split(sep)` for a single-character separator: keeps
empty fields, `"".split(sep) = [""]`. -/
def splitOnChar (c : Char) : List Char → List (List Char)
  | [] => [[]]
  | x :: xs =>
    if x = c then [] :: splitOnChar c xs
    else
      match splitOnChar c xs with
      | t :: ts => (x :: t) :: ts
      | [] => [[x]]

/-- `"-".join(tokens)` on character lists. -/
def joinHyphen (ts : List (List Char)) : List Char := List.intercalate ['-'] ts

/-- `cs.endswith(suff)` on character lists. -/
def endsWithChars (cs suff : List Char) : Bool :=
  decide (cs.drop (cs.length - suff.length) = suff)

/-- `file.lower().endswith(('.svs', '.tiff'))` (ASCII lowercasing, at
the character-list level so that it evaluates by `decide`). -/
def hasImgExt (f : String) : Bool :=
  endsWithChars (f.toList.map Char.toLower) ".svs".toList ||
    endsWithChars (f.toList.map Char.toLower) ".tiff".toList

/-- One row of the slide-to-case mapping. -/
structure SlideRow where
  full_slide_file : String
  patient : String
  slide_id : String
deriving DecidableEq, Repr

/-- The per-file body of `postprocess_slides`: `none` when the file is
skipped (wrong extension or fewer than three hyphen tokens). -/
def mapSlideFile (f : String) : Option SlideRow :=
  if hasImgExt f then
    let base := (splitextChars f.toList).1
    let pre := (splitFirstDot base).1
    let post := (splitFirstDot base).2
    let tokens := splitOnChar '-' pre
    if 3 ≤ tokens.length then
      some ⟨f, String.mk (joinHyphen (tokens.take 3)),
        String.mk (joinHyphen (tokens.drop 3) ++
          (if post.isEmpty then [] else '.' :: post))⟩
    else none
  else none

/-- `postprocess_slides` over the list of file names found by the
directory walk. -/
def postprocessSlides (files : List String) : List SlideRow :=
  files.filterMap mapSlideFile

/-- C7: for a file with a `.svs`/`.tiff` extension, the mapper strips the
extension, splits at the first literal dot into `pre`/`post`, tokenizes
`pre` on hyphens, and (a) with at least three tokens maps the file to
patient = first three tokens hyphen-joined and slide id = remaining
tokens hyphen-joined plus the dot-prefixed post segment when present;
(b) with fewer than three tokens excludes the file from the mapping
entirely. -/
theorem slide_mapping_rule (f : String) (files : List String)
    (hext : hasImgExt f = true) :
    (3 ≤ (splitOnChar '-' (splitFirstDot (splitextChars f.toList).1).1).length →
      mapSlideFile f = some
        ⟨f,
         String.mk (joinHyphen
           ((splitOnChar '-' (splitFirstDot (splitextChars f.toList).1).1).take 3)),
         String.mk (joinHyphen
             ((splitOnChar '-' (splitFirstDot (splitextChars f.toList).1).1).drop 3) ++
           (if (splitFirstDot (splitextChars f.toList).1).2.isEmpty then []
            else '.' :: (splitFirstDot (splitextChars f.toList).1).2))⟩) ∧
    ((splitOnChar '-' (splitFirstDot (splitextChars f.toList).1).1).length < 3 →
      mapSlideFile f = none ∧
        postprocessSlides (f :: files) = postprocessSlides files) := by
  constructor
  · intro hlen
    simp only [mapSlideFile, hext, if_true]
    rw [if_pos hlen]
  · intro hlen
    have hmap : mapSlideFile f = none := by
      simp only [mapSlideFile, hext, if_true]
      rw [if_neg (by omega)]
    exact ⟨hmap, by simp [postprocessSlides, hmap]⟩

/-- C7 witness: `TCGA-AB-1234.sample-01.svs` maps to patient
`TCGA-AB-1234` and slide id `.sample-01` (empty remaining-token part
plus the dot-prefixed post segment), and `TCGA-XX.svs` (two hyphen
tokens) is excluded from the mapping. -/
theorem slide_mapping_rule_witness :
    mapSlideFile "TCGA-AB-1234.sample-01.svs" =
      some ⟨"TCGA-AB-1234.sample-01.svs", "TCGA-AB-1234", ".sample-01"⟩ ∧
    (mapSlideFile "TCGA-XX.svs" = none ∧
      postprocessSlides ["TCGA-XX.svs"] = postprocessSlides []) := by
  constructor
  · have h := (slide_mapping_rule "TCGA-AB-1234.sample-01.svs" [] (by decide)).1
      (by decide)
    rw [h]
    decide
  · exact (slide_mapping_rule "TCGA-XX.svs" [] (by decide)).2 (by decide)

/-! ## Final annotation joiners (`create_final_survival_annotations_days`,
`create_separate_classification_annotations`)

Both read already-materialized tables, alias the clinical case-id column
to `patient`, strip image extensions from the slide filename, and
`pd.merge(..., on="patient", how="inner")`.  An inner merge of two row
lists is the left-ordered list of all matching pairs. -/

/-- One row of the survival annotation table (read back with
`dtype=str`; missing cells are `none`). -/
structure SurvRow where
  patient : String
  event : Option String
  time : Option String
deriving DecidableEq, Repr

/-- One row of the final survival annotation table. -/
structure FinalSurvRow where
  slide : String
  patient : String
  event : Option String
  time : Option String
deriving DecidableEq, Repr

/-- Strip a trailing `.svs` or `.tiff` (the regex
`\.(svs|tiff)$` replaced by the empty string). -/
def stripImgExt (s : String) : String :=
  if endsWithChars s.toList ".svs".toList then String.mk (s.toList.take (s.toList.length - 4))
  else if endsWithChars s.toList ".tiff".toList then
    String.mk (s.toList.take (s.toList.length - 5))
  else s

/-- `create_final_survival_annotations_days`: inner join of the slide
mapping and the survival (days) table on `patient`, slide extension
stripped, projected to (slide, patient, event, time). -/
def createFinalSurvivalAnnotationsDays (mapping : List SlideRow) (surv : List SurvRow) :
    List FinalSurvRow :=
  mapping.flatMap fun m =>
    surv.filterMap fun s =>
      if m.patient = s.patient then
        some ⟨stripImgExt m.full_slide_file, m.patient, s.event, s.time⟩
      else none

/-- One row of the clinical table restricted to one classification
column (`category = none` models a NaN dropped by `dropna`). -/
structure ClinCatRow where
  patient : String
  category : Option String
deriving DecidableEq, Repr

/-- One row of a final classification annotation table. -/
structure ClassRow where
  slide : String
  patient : String
  category : String
deriving DecidableEq, Repr

/-- The per-column body of `create_separate_classification_annotations`:
drop rows with a null category, then inner join with the (extension-
stripped) slide mapping on `patient`, projected to
(slide, patient, category). -/
def createSeparateClassificationAnnotations (mapping : List SlideRow)
    (clinical : List ClinCatRow) : List ClassRow :=
  let classRows := clinical.filterMap fun r => r.category.map fun c => (r.patient, c)
  mapping.flatMap fun m =>
    classRows.filterMap fun pc =>
      if m.patient = pc.1 then some ⟨stripImgExt m.full_slide_file, m.patient, pc.2⟩
      else none

/-- Membership characterization of the survival join. -/
theorem mem_finalSurvDays_iff (mapping : List SlideRow) (surv : List SurvRow)
    (row : FinalSurvRow) :
    row ∈ createFinalSurvivalAnnotationsDays mapping surv ↔
      ∃ m ∈ mapping, ∃ s ∈ surv, m.patient = s.patient ∧
        row = ⟨stripImgExt m.full_slide_file, m.patient, s.event, s.time⟩ := by
  simp only [createFinalSurvivalAnnotationsDays, List.mem_flatMap, List.mem_filterMap]
  constructor
  · rintro ⟨m, hm, s, hs, hif⟩
    by_cases hp : m.patient = s.patient
    · rw [if_pos hp] at hif
      exact ⟨m, hm, s, hs, hp, (Option.some.inj hif).symm⟩
    · rw [if_neg hp] at hif; cases hif
  · rintro ⟨m, hm, s, hs, hp, rfl⟩
    exact ⟨m, hm, s, hs, by rw [if_pos hp]⟩

/-- Membership characterization of the classification join. -/
theorem mem_finalClass_iff (mapping : List SlideRow) (clinical : List ClinCatRow)
    (row : ClassRow) :
    row ∈ createSeparateClassificationAnnotations mapping clinical ↔
      ∃ m ∈ mapping, ∃ r ∈ clinical, ∃ c, r.category = some c ∧
        m.patient = r.patient ∧
        row = ⟨stripImgExt m.full_slide_file, m.patient, c⟩ := by
  simp only [createSeparateClassificationAnnotations, List.mem_flatMap, List.mem_filterMap,
    Option.map_eq_some']
  constructor
  · rintro ⟨m, hm, pc, ⟨r, hr, c, hc, rfl⟩, hif⟩
    by_cases hp : m.patient = r.patient
    · rw [if_pos hp] at hif
      exact ⟨m, hm, r, hr, c, hc, hp, (Option.some.inj hif).symm⟩
    · rw [if_neg hp] at hif; cases hif
  · rintro ⟨m, hm, r, hr, c, hc, hp, rfl⟩
    exact ⟨m, hm, (r.patient, c), ⟨r, hr, c, hc, rfl⟩, by rw [if_pos hp]⟩

/-- C5: both final annotation joiners produce exactly the inner join on
the patient key: a row is in the output iff it is assembled from a
mapping row and a clinical/survival row with equal patient, every such
matching combination appears, and a slide whose patient has no clinical
row contributes no output row (no output row carries its patient). -/
theorem final_annotations_inner_join :
    (∀ (mapping : List SlideRow) (surv : List SurvRow) (row : FinalSurvRow),
      row ∈ createFinalSurvivalAnnotationsDays mapping surv ↔
        ∃ m ∈ mapping, ∃ s ∈ surv, m.patient = s.patient ∧
          row = ⟨stripImgExt m.full_slide_file, m.patient, s.event, s.time⟩) ∧
    (∀ (mapping : List SlideRow) (clinical : List ClinCatRow) (row : ClassRow),
      row ∈ createSeparateClassificationAnnotations mapping clinical ↔
        ∃ m ∈ mapping, ∃ r ∈ clinical, ∃ c, r.category = some c ∧
          m.patient = r.patient ∧
          row = ⟨stripImgExt m.full_slide_file, m.patient, c⟩) ∧
    (∀ (mapping : List SlideRow) (surv : List SurvRow) (m : SlideRow),
      m ∈ mapping → (∀ s ∈ surv, s.patient ≠ m.patient) →
      ∀ row ∈ createFinalSurvivalAnnotationsDays mapping surv,
        row.patient ≠ m.patient) := by
  refine ⟨mem_finalSurvDays_iff, mem_finalClass_iff, ?_⟩
  intro mapping surv m hm hnone row hrow
  obtain ⟨m2, hm2, s, hs, hp, rfl⟩ := (mem_finalSurvDays_iff mapping surv row).mp hrow
  intro hbad
  exact hnone s hs (by rw [← hp]; exact hbad.symm ▸ rfl)

/-- C5 witness: a slide mapping with patients {A, B} joined against a
survival table containing only patient A produces exactly the A row and
nothing for B (checked through the inner-join characterization). -/
theorem final_annotations_inner_join_witness :
    (⟨"slideA", "A", some "1", some "800"⟩ : FinalSurvRow) ∈
      createFinalSurvivalAnnotationsDays
        [⟨"slideA.svs", "A", "s1"⟩, ⟨"slideB.svs", "B", "s2"⟩]
        [⟨"A", some "1", some "800"⟩] ∧
    ∀ row ∈ createFinalSurvivalAnnotationsDays
        [⟨"slideA.svs", "A", "s1"⟩, ⟨"slideB.svs", "B", "s2"⟩]
        [⟨"A", some "1", some "800"⟩], row.patient ≠ "B" :=
  ⟨(final_annotations_inner_join.1
      [⟨"slideA.svs", "A", "s1"⟩, ⟨"slideB.svs", "B", "s2"⟩]
      [⟨"A", some "1", some "800"⟩]
      ⟨"slideA", "A", some "1", some "800"⟩).mpr
    ⟨⟨"slideA.svs", "A", "s1"⟩, by decide, ⟨"A", some "1", some "800"⟩, by decide,
      rfl, by decide⟩,
   final_annotations_inner_join.2.2
      [⟨"slideA.svs", "A", "s1"⟩, ⟨"slideB.svs", "B", "s2"⟩]
      [⟨"A", some "1", some "800"⟩]
      ⟨"slideB.svs", "B", "s2"⟩ (by decide) (by decide)⟩

/-! ## Grouping engine (`build_patient_groups`)

The input is a files table: a list of column names and, for each file
row, the values of the four case-linkage source columns (cells may be
missing, i.e. `none`).  The function selects the source columns present
in the table: with none of them present it returns an empty table; with
all four present it aggregates per case key; with only some present the
pandas code raises a `KeyError` (modelled as `Except.error`). -/

/-- One file row's case-linkage cells. -/
structure FileRow where
  case_id : Option String
  submitter_id : Option String
  project_id : Option String
  sample_type : Option String
deriving DecidableEq, Repr

/-- A files table: its column names plus the linkage cells per row. -/
structure FilesTable where
  cols : List String
  rows : List FileRow
deriving DecidableEq, Repr

/-- The four case-linkage source columns `build_patient_groups` looks
for. -/
def srcCols : List String :=
  ["cases.case_id", "cases.submitter_id", "cases.project.project_id",
   "cases.samples.sample_type"]

/-- Sample types counted as tumor. -/
def tumorTypes : List String := ["Primary Tumor", "Metastatic", "Recurrent Tumor"]

/-- Sample types counted as normal tissue. -/
def normalTypes : List String := ["Solid Tissue Normal", "Blood Derived Normal"]

/-- `s in {"Primary Tumor", "Metastatic", "Recurrent Tumor"}` (false for
a missing value, as for a pandas `NaN`). -/
def isTumorType (s : Option String) : Bool :=
  match s with
  | some v => decide (v ∈ tumorTypes)
  | none => false

/-- `s in {"Solid Tissue Normal", "Blood Derived Normal"}`. -/
def isNormalType (s : Option String) : Bool :=
  match s with
  | some v => decide (v ∈ normalTypes)
  | none => false

/-- The groupby key `(case_id, submitter_id, project_id)`
(`dropna=False`: missing keys form their own groups). -/
def keyOf (r : FileRow) : Option String × Option String × Option String :=
  (r.case_id, r.submitter_id, r.project_id)

/-- Distinct elements in order of first occurrence (worker with the set
of already-seen elements). -/
def dedupFirstAux {α : Type} [DecidableEq α] (seen : List α) : List α → List α
  | [] => []
  | x :: xs =>
    if x ∈ seen then dedupFirstAux seen xs
    else x :: dedupFirstAux (x :: seen) xs

/-- Distinct elements in order of first occurrence. -/
def dedupFirst {α : Type} [DecidableEq α] (l : List α) : List α :=
  dedupFirstAux [] l

/-- One row of the groups table. -/
structure GroupRow where
  case_id : Option String
  submitter_id : Option String
  project_id : Option String
  has_tumor : Bool
  has_normal : Bool
  group : String
deriving DecidableEq, Repr

/-- The label function of `build_patient_groups`. -/
def groupLabel (ht hn : Bool) : String :=
  if ht && hn then "paired"
  else if ht then "tumor_only"
  else if hn then "normal_only"
  else "other"

/-- The `has_tumor` aggregate for one group key (max, i.e. logical or,
of the per-row memberships). -/
def anyTumor (rows : List FileRow)
    (k : Option String × Option String × Option String) : Bool :=
  (rows.filter (fun r => keyOf r = k)).any (fun r => isTumorType r.sample_type)

/-- The `has_normal` aggregate for one group key. -/
def anyNormal (rows : List FileRow)
    (k : Option String × Option String × Option String) : Bool :=
  (rows.filter (fun r => keyOf r = k)).any (fun r => isNormalType r.sample_type)

/-- The aggregation for one group key. -/
def mkGroupRow (rows : List FileRow)
    (k : Option String × Option String × Option String) : GroupRow :=
  ⟨k.1, k.2.1, k.2.2, anyTumor rows k, anyNormal rows k,
   groupLabel (anyTumor rows k) (anyNormal rows k)⟩

/-- `build_patient_groups`: empty result when no linkage column is
present; a `KeyError` (`Except.error`) when only some are present; else
one aggregated row per distinct case key. -/
def buildPatientGroups (t : FilesTable) : Except Unit (List GroupRow) :=
  let present := srcCols.filter (fun c => t.cols.contains c)
  if present.isEmpty then .ok []
  else if present.length = srcCols.length then
    .ok ((dedupFirst (t.rows.map keyOf)).map (mkGroupRow t.rows))
  else .error ()

/-- `dedupFirstAux` only returns elements of its input. -/
theorem dedupFirstAux_subset {α : Type} [DecidableEq α] :
    ∀ (seen l : List α) (x : α), x ∈ dedupFirstAux seen l → x ∈ l
  | _, [], x, hx => by simp [dedupFirstAux] at hx
  | seen, y :: ys, x, hx => by
    rw [dedupFirstAux] at hx
    by_cases hm : y ∈ seen
    · rw [if_pos hm] at hx
      exact List.mem_cons_of_mem _ (dedupFirstAux_subset seen ys x hx)
    · rw [if_neg hm] at hx
      rcases List.mem_cons.mp hx with rfl | hx2
      · exact List.mem_cons_self _ _
      · exact List.mem_cons_of_mem _ (dedupFirstAux_subset (y :: seen) ys x hx2)

/-- A sample type in the tumor list is not in the normal list. -/
theorem tumor_not_normal (s : Option String) (h : isTumorType s = true) :
    isNormalType s = false := by
  match s with
  | none => simp [isTumorType] at h
  | some v =>
    have hv : v ∈ tumorTypes := by
      simpa [isTumorType] using h
    simp only [tumorTypes, List.mem_cons, List.not_mem_nil, or_false] at hv
    rcases hv with rfl | rfl | rfl <;> decide

/-- Every group row produced comes from `mkGroupRow` at a key that
occurs among the input rows. -/
theorem buildPatientGroups_mem {t : FilesTable} {out : List GroupRow} {g : GroupRow}
    (hok : buildPatientGroups t = Except.ok out) (hg : g ∈ out) :
    ∃ k, k ∈ t.rows.map keyOf ∧ g = mkGroupRow t.rows k := by
  unfold buildPatientGroups at hok
  by_cases h1 : (srcCols.filter (fun c => t.cols.contains c)).isEmpty
  · rw [if_pos h1] at hok
    cases hok
    cases hg
  · rw [if_neg h1] at hok
    by_cases h2 : (srcCols.filter (fun c => t.cols.contains c)).length = srcCols.length
    · rw [if_pos h2] at hok
      cases hok
      obtain ⟨k, hk, rfl⟩ := List.mem_map.mp hg
      exact ⟨k, dedupFirstAux_subset _ _ k hk, rfl⟩
    · rw [if_neg h2] at hok
      cases hok

/-- C6: (1) every output row of `build_patient_groups` carries exactly
the label determined by its `(has_tumor, has_normal)` pair — the four
labels are a total, mutually exclusive classification; (2) a case all of
whose rows have tumor sample types is labelled `tumor_only`; (3) when
none of the four case-linkage columns is present, the result is an empty
table, not an error. -/
theorem patient_groups_classification :
    (∀ (t : FilesTable) (out : List GroupRow) (g : GroupRow),
        buildPatientGroups t = Except.ok out → g ∈ out →
        ((g.group = "paired" ↔ g.has_tumor = true ∧ g.has_normal = true) ∧
         (g.group = "tumor_only" ↔ g.has_tumor = true ∧ g.has_normal = false) ∧
         (g.group = "normal_only" ↔ g.has_tumor = false ∧ g.has_normal = true) ∧
         (g.group = "other" ↔ g.has_tumor = false ∧ g.has_normal = false))) ∧
    (∀ (t : FilesTable) (out : List GroupRow) (g : GroupRow),
        buildPatientGroups t = Except.ok out → g ∈ out →
        (∀ r ∈ t.rows, keyOf r = (g.case_id, g.submitter_id, g.project_id) →
          isTumorType r.sample_type = true) →
        g.group = "tumor_only") ∧
    (∀ t : FilesTable, (∀ c ∈ srcCols, t.cols.contains c = false) →
        buildPatientGroups t = Except.ok []) := by
  refine ⟨?_, ?_, ?_⟩
  · intro t out g hok hg
    obtain ⟨k, _, rfl⟩ := buildPatientGroups_mem hok hg
    simp only [mkGroupRow]
    cases hht : anyTumor t.rows k <;> cases hhn : anyNormal t.rows k <;>
      simp [groupLabel]
  · intro t out g hok hg hall
    obtain ⟨k, hk, rfl⟩ := buildPatientGroups_mem hok hg
    obtain ⟨r0, hr0, hkey⟩ := List.mem_map.mp hk
    have hall2 : ∀ r ∈ t.rows, keyOf r = k → isTumorType r.sample_type = true := by
      intro r hr hkr
      exact hall r hr hkr
    have ht : anyTumor t.rows k = true := by
      rw [anyTumor, List.any_eq_true]
      refine ⟨r0, List.mem_filter.mpr ⟨hr0, by simp [hkey]⟩, ?_⟩
      rw [hall2 r0 hr0 hkey]
    have hn : anyNormal t.rows k = false := by
      rw [anyNormal, List.any_eq_false]
      intro r hr
      obtain ⟨hrmem, hrkey⟩ := List.mem_filter.mp hr
      rw [tumor_not_normal _ (hall2 r hrmem (by simpa using hrkey))]
      simp
    simp only [mkGroupRow, ht, hn]
    rfl
  · intro t hnone
    have hfil : srcCols.filter (fun c => t.cols.contains c) = [] := by
      rw [List.filter_eq_nil_iff]
      intro c hc
      rw [hnone c hc]
      simp
    unfold buildPatientGroups
    rw [hfil]
    rfl

/-- Concrete files table for the C6 witness: one case with two tumor-type
rows. -/
def filesT0 : FilesTable :=
  ⟨srcCols,
   [⟨some "c1", some "s1", some "p1", some "Primary Tumor"⟩,
    ⟨some "c1", some "s1", some "p1", some "Metastatic"⟩]⟩

/-- The single output row of `buildPatientGroups filesT0`. -/
def groupG0 : GroupRow := ⟨some "c1", some "s1", some "p1", true, false, "tumor_only"⟩

/-- C6 witness: on `filesT0` the (unique) output row is labelled
`tumor_only` by the all-tumor conjunct; a table with no linkage columns
yields an empty result via the empty conjunct; and the label/flag
equivalence holds on the output row. -/
theorem patient_groups_classification_witness :
    buildPatientGroups filesT0 = Except.ok [groupG0] ∧
    groupG0.group = "tumor_only" ∧
    (groupG0.group = "paired" ↔ groupG0.has_tumor = true ∧ groupG0.has_normal = true) ∧
    buildPatientGroups ⟨["file_name", "file_size"], []⟩ = Except.ok [] := by
  refine ⟨rfl, ?_, ?_, ?_⟩
  · exact patient_groups_classification.2.1 filesT0 [groupG0] groupG0
      rfl (List.mem_singleton.mpr rfl) (by decide)
  · exact (patient_groups_classification.1 filesT0 [groupG0] groupG0
      rfl (List.mem_singleton.mpr rfl)).1
  · exact patient_groups_classification.2.2 ⟨["file_name", "file_size"], []⟩
      (by decide)

/-! ## Case/sample linkage normalizer (`utils.ensure_case_sample_columns`)

The raw flattened table is a list of column names plus association-list
rows from column name to cell value.  Cell values are modelled by the
grammar the GDC `/files` endpoint produces for the columns this
function reads: a scalar string, a JSON null, a single case object, or
a list of (possibly null) case objects, where a case object carries the
scalar ids, the project id, and a list of (possibly null) sample
objects.  The function (1) renames indexed columns
`cases.<digits>.<rest>` to `cases.<rest>`; (2) returns unchanged if a
canonical scalar column is now present; (3) otherwise, if a raw `cases`
column exists, derives the five canonical scalar columns from the first
case / first sample. -/

/-- A nested sample object (`cases[].samples[]`). -/
structure SampleObj where
  sample_type : Option String
  sample_id : Option String
deriving DecidableEq, Repr

/-- A nested case object (`cases[]`). -/
structure CaseObj where
  case_id : Option String
  submitter_id : Option String
  project_id : Option String
  samples : List (Option SampleObj)
deriving DecidableEq, Repr

/-- A cell of the raw flattened table. -/
inductive CellVal where
  | null
  | str (s : String)
  | caseList (cs : List (Option CaseObj))
  | caseObj (c : CaseObj)
deriving DecidableEq, Repr

/-- A flattened table: column names and association-list rows. -/
structure DFrame where
  cols : List String
  rows : List (List (String × CellVal))
deriving DecidableEq, Repr

/-- `re.match(r"^cases\.\d+\.(.+)$", c)`: the captured group when the
column name is `cases.` followed by one or more digits, a dot, and a
nonempty remainder. -/
def matchCasesIdx (c : String) : Option String :=
  let cs := c.toList
  if cs.take 6 = "cases.".toList then
    let rest := cs.drop 6
    let digits := rest.takeWhile Char.isDigit
    let after := rest.dropWhile Char.isDigit
    if digits.isEmpty then none
    else
      match after with
      | '.' :: tail => if tail.isEmpty then none else some (String.mk tail)
      | _ => none
  else none

/-- The column rename applied in step 1 (identity on non-matching
names). -/
def renameOne (c : String) : String :=
  match matchCasesIdx c with
  | some rest => "cases." ++ rest
  | none => c

/-- Rename the keys of one row. -/
def renameRow (r : List (String × CellVal)) : List (String × CellVal) :=
  r.map fun kv => (renameOne kv.1, kv.2)

/-- `df.rename(columns=renames)`. -/
def renameDF (df : DFrame) : DFrame :=
  ⟨df.cols.map renameOne, df.rows.map renameRow⟩

/-- Read a cell (a column missing from the row reads as null). -/
def getCell (r : List (String × CellVal)) (c : String) : CellVal :=
  match r.lookup c with
  | some v => v
  | none => .null

/-- The empty case dict `{}`. -/
def emptyCase : CaseObj := ⟨none, none, none, []⟩

/-- The empty sample dict `{}`. -/
def emptySample : SampleObj := ⟨none, none⟩

/-- `first_case`: first element of a nonempty list (`or {}` for a null
element), a dict itself, `{}` otherwise. -/
def firstCase (v : CellVal) : CaseObj :=
  match v with
  | .caseList (x :: _) => x.getD emptyCase
  | .caseObj c => c
  | _ => emptyCase

/-- `first_sample`: first element of a nonempty `samples` list (`or {}`
for a null element), `{}` otherwise. -/
def firstSample (c : CaseObj) : SampleObj :=
  match c.samples with
  | x :: _ => x.getD emptySample
  | [] => emptySample

/-- An optional string as a cell. -/
def optStrCell (v : Option String) : CellVal :=
  match v with
  | some s => .str s
  | none => .null

/-- Set a column in a row: replace the first binding of that name, or
append one. -/
def setCol (r : List (String × CellVal)) (name : String) (v : CellVal) :
    List (String × CellVal) :=
  match r with
  | [] => [(name, v)]
  | kv :: rest => if kv.1 = name then (name, v) :: rest else kv :: setCol rest name v

/-- Register a column name (no duplicate when already present). -/
def addColName (cols : List String) (name : String) : List String :=
  if name ∈ cols then cols else cols ++ [name]

/-- `df[name] = df["cases"].map(...)`-style derived-column assignment. -/
def addDerivedCol (df : DFrame) (name : String)
    (f : List (String × CellVal) → CellVal) : DFrame :=
  ⟨addColName df.cols name, df.rows.map fun r => setCol r name (f r)⟩

/-- Step 3 of `ensure_case_sample_columns`: derive the five canonical
scalar columns from the raw `cases` column. -/
def extractCases (df : DFrame) : DFrame :=
  addDerivedCol
    (addDerivedCol
      (addDerivedCol
        (addDerivedCol
          (addDerivedCol df "cases.case_id"
            (fun r => optStrCell (firstCase (getCell r "cases")).case_id))
          "cases.submitter_id"
          (fun r => optStrCell (firstCase (getCell r "cases")).submitter_id))
        "cases.project.project_id"
        (fun r => optStrCell (firstCase (getCell r "cases")).project_id))
      "cases.samples.sample_type"
      (fun r => optStrCell (firstSample (firstCase (getCell r "cases"))).sample_type))
    "cases.samples.sample_id"
    (fun r => optStrCell (firstSample (firstCase (getCell r "cases"))).sample_id)

/-- `utils.ensure_case_sample_columns`: rename indexed columns, return
early when a canonical scalar column is present, otherwise extract from
the raw `cases` column when it exists. -/
def ensureCaseSampleColumns (df : DFrame) : DFrame :=
  if "cases.submitter_id" ∈ (renameDF df).cols ∨ "cases.case_id" ∈ (renameDF df).cols then
    renameDF df
  else if "cases" ∈ (renameDF df).cols then extractCases (renameDF df)
  else renameDF df

/-- The doubly-indexed column that breaks idempotence. -/
def cexDF : DFrame := ⟨["cases.0.1.case_id"], [[("cases.0.1.case_id", CellVal.null)]]⟩

/-- C10 counterexample: on a table with the single column
`cases.0.1.case_id`, one application of the normalizer renames it to
`cases.1.case_id` and a second application renames it further to
`cases.case_id`, so applying the normalizer twice does not equal
applying it once. -/
theorem normalizer_not_idempotent_cex :
    ensureCaseSampleColumns (ensureCaseSampleColumns cexDF) ≠
      ensureCaseSampleColumns cexDF ∧
    (ensureCaseSampleColumns cexDF).cols = ["cases.1.case_id"] ∧
    (ensureCaseSampleColumns (ensureCaseSampleColumns cexDF)).cols =
      ["cases.case_id"] := by
  refine ⟨by decide, by decide, by decide⟩

/-- All column names and row keys of a table are fixed points of the
rename. -/
def RenameFixed (d : DFrame) : Prop :=
  (∀ c ∈ d.cols, renameOne c = c) ∧ (∀ r ∈ d.rows, ∀ kv ∈ r, renameOne kv.1 = kv.1)

/-- On a rename-fixed table, the rename pass is the identity. -/
theorem renameDF_of_fixed {d : DFrame} (h : RenameFixed d) : renameDF d = d := by
  rcases d with ⟨cols, rows⟩
  simp only [renameDF, DFrame.mk.injEq]
  constructor
  · have h2 : cols.map renameOne = cols.map id := List.map_congr_left fun c hc => h.1 c hc
    simpa using h2
  · have h2 : rows.map renameRow = rows.map id := by
      refine List.map_congr_left fun r hr => ?_
      have h3 : r.map (fun kv => (renameOne kv.1, kv.2)) = r.map id := by
        refine List.map_congr_left fun kv hkv => ?_
        rw [h.2 r hr kv hkv]
        exact Prod.mk.eta
      simpa [renameRow] using h3
    simpa using h2

/-- When one rename pass stabilizes every name, the renamed table is
rename-fixed. -/
theorem renameFixed_renameDF {d : DFrame}
    (hc : ∀ c ∈ d.cols, renameOne (renameOne c) = renameOne c)
    (hr : ∀ r ∈ d.rows, ∀ kv ∈ r, renameOne (renameOne kv.1) = renameOne kv.1) :
    RenameFixed (renameDF d) := by
  constructor
  · intro c hcmem
    obtain ⟨c0, hc0, rfl⟩ := List.mem_map.mp hcmem
    exact hc c0 hc0
  · intro r hrmem kv hkv
    obtain ⟨r0, hr0, rfl⟩ := List.mem_map.mp hrmem
    obtain ⟨kv0, hkv0, rfl⟩ := List.mem_map.mp hkv
    exact hr r0 hr0 kv0 hkv0

/-- Keys after `setCol` are the new name or keys already in the row. -/
theorem setCol_keys :
    ∀ (r : List (String × CellVal)) (name : String) (v : CellVal)
      (kv : String × CellVal), kv ∈ setCol r name v → kv.1 = name ∨ kv ∈ r
  | [], name, v, kv, hkv => by
    rw [setCol] at hkv
    rcases List.mem_singleton.mp hkv with rfl
    exact Or.inl rfl
  | kv0 :: rest, name, v, kv, hkv => by
    rw [setCol] at hkv
    by_cases h0 : kv0.1 = name
    · rw [if_pos h0] at hkv
      rcases List.mem_cons.mp hkv with rfl | h2
      · exact Or.inl rfl
      · exact Or.inr (List.mem_cons_of_mem _ h2)
    · rw [if_neg h0] at hkv
      rcases List.mem_cons.mp hkv with rfl | h2
      · exact Or.inr (List.mem_cons_self _ _)
      · rcases setCol_keys rest name v kv h2 with h3 | h3
        · exact Or.inl h3
        · exact Or.inr (List.mem_cons_of_mem _ h3)

/-- Adding a derived column with a rename-fixed name keeps the table
rename-fixed. -/
theorem renameFixed_addDerivedCol {d : DFrame} {name : String}
    {f : List (String × CellVal) → CellVal}
    (h : RenameFixed d) (hn : renameOne name = name) :
    RenameFixed (addDerivedCol d name f) := by
  constructor
  · intro c hcmem
    simp only [addDerivedCol, addColName] at hcmem
    by_cases hin : name ∈ d.cols
    · rw [if_pos hin] at hcmem
      exact h.1 c hcmem
    · rw [if_neg hin] at hcmem
      rcases List.mem_append.mp hcmem with h2 | h2
      · exact h.1 c h2
      · rcases List.mem_singleton.mp h2 with rfl
        exact hn
  · intro r hrmem kv hkv
    simp only [addDerivedCol] at hrmem
    obtain ⟨r0, hr0, rfl⟩ := List.mem_map.mp hrmem
    rcases setCol_keys r0 name (f r0) kv hkv with h2 | h2
    · rw [h2]; exact hn
    · exact h.2 r0 hr0 kv h2

/-- The five canonical names are rename-fixed, so extraction keeps the
table rename-fixed. -/
theorem renameFixed_extractCases {d : DFrame} (h : RenameFixed d) :
    RenameFixed (extractCases d) := by
  unfold extractCases
  refine renameFixed_addDerivedCol
    (renameFixed_addDerivedCol
      (renameFixed_addDerivedCol
        (renameFixed_addDerivedCol
          (renameFixed_addDerivedCol h (by decide)) (by decide)) (by decide))
      (by decide)) (by decide)

/-- The registered name is in the column list. -/
theorem mem_addColName_self (cols : List String) (name : String) :
    name ∈ addColName cols name := by
  unfold addColName
  by_cases hin : name ∈ cols
  · rw [if_pos hin]; exact hin
  · rw [if_neg hin]
    exact List.mem_append.mpr (Or.inr (List.mem_singleton.mpr rfl))

/-- Registering a name preserves the other columns. -/
theorem mem_addColName_of {c : String} {cols : List String} (name : String)
    (h : c ∈ cols) : c ∈ addColName cols name := by
  unfold addColName
  by_cases hin : name ∈ cols
  · rw [if_pos hin]; exact h
  · rw [if_neg hin]
    exact List.mem_append.mpr (Or.inl h)

/-- Extraction always leaves `cases.case_id` among the columns. -/
theorem caseId_mem_extractCases (d : DFrame) :
    "cases.case_id" ∈ (extractCases d).cols := by
  unfold extractCases
  simp only [addDerivedCol]
  exact mem_addColName_of _ (mem_addColName_of _ (mem_addColName_of _
    (mem_addColName_of _ (mem_addColName_self _ _))))

/-- C10 (amended): the normalizer is idempotent on every table whose
column names and row keys stabilize after one rename pass — i.e. no name
carries two leading numeric index segments (`cases.<i>.<j>.<rest>`); on
such tables applying it twice equals applying it once.  In particular,
on a table already carrying a canonical scalar case column whose names
are all untouched by the rename, the normalizer is the identity. -/
theorem normalizer_idempotent_stable (df : DFrame)
    (hc : ∀ c ∈ df.cols, renameOne (renameOne c) = renameOne c)
    (hr : ∀ r ∈ df.rows, ∀ kv ∈ r, renameOne (renameOne kv.1) = renameOne kv.1) :
    ensureCaseSampleColumns (ensureCaseSampleColumns df) = ensureCaseSampleColumns df ∧
    (("cases.submitter_id" ∈ df.cols ∨ "cases.case_id" ∈ df.cols) →
      (∀ c ∈ df.cols, renameOne c = c) →
      (∀ r ∈ df.rows, ∀ kv ∈ r, renameOne kv.1 = kv.1) →
      ensureCaseSampleColumns df = df) := by
  have hd1fix : RenameFixed (renameDF df) := renameFixed_renameDF hc hr
  have hrr : renameDF (renameDF df) = renameDF df := renameDF_of_fixed hd1fix
  constructor
  · by_cases h1 : "cases.submitter_id" ∈ (renameDF df).cols ∨
        "cases.case_id" ∈ (renameDF df).cols
    · have he : ensureCaseSampleColumns df = renameDF df := by
        unfold ensureCaseSampleColumns; rw [if_pos h1]
      have he2 : ensureCaseSampleColumns (renameDF df) = renameDF df := by
        unfold ensureCaseSampleColumns
        rw [hrr, if_pos h1]
      rw [he, he2]
    · by_cases h2 : "cases" ∈ (renameDF df).cols
      · have he : ensureCaseSampleColumns df = extractCases (renameDF df) := by
          unfold ensureCaseSampleColumns; rw [if_neg h1, if_pos h2]
        have hexfix : RenameFixed (extractCases (renameDF df)) :=
          renameFixed_extractCases hd1fix
        have hrex : renameDF (extractCases (renameDF df)) = extractCases (renameDF df) :=
          renameDF_of_fixed hexfix
        have he2 : ensureCaseSampleColumns (extractCases (renameDF df)) =
            extractCases (renameDF df) := by
          unfold ensureCaseSampleColumns
          rw [hrex, if_pos (Or.inr (caseId_mem_extractCases (renameDF df)))]
        rw [he, he2]
      · have he : ensureCaseSampleColumns df = renameDF df := by
          unfold ensureCaseSampleColumns; rw [if_neg h1, if_neg h2]
        have he2 : ensureCaseSampleColumns (renameDF df) = renameDF df := by
          unfold ensureCaseSampleColumns
          rw [hrr, if_neg h1, if_neg h2]
        rw [he, he2]
  · intro hcanon hfc hfr
    have hrd : renameDF df = df := renameDF_of_fixed ⟨hfc, hfr⟩
    unfold ensureCaseSampleColumns
    rw [hrd, if_pos hcanon]

/-- Already-canonical table for the C10 witness. -/
def dfW : DFrame :=
  ⟨["cases.case_id", "file_name"],
   [[("cases.case_id", CellVal.str "C1"), ("file_name", CellVal.str "f.svs")]]⟩

/-- C10 witness: on a table already carrying `cases.case_id` with no
indexed columns, the normalizer is idempotent and the identity. -/
theorem normalizer_idempotent_stable_witness :
    ensureCaseSampleColumns (ensureCaseSampleColumns dfW) =
      ensureCaseSampleColumns dfW ∧
    ensureCaseSampleColumns dfW = dfW :=
  ⟨(normalizer_idempotent_stable dfW (by decide) (by decide)).1,
   (normalizer_idempotent_stable dfW (by decide) (by decide)).2
     (Or.inr (by decide)) (by decide) (by decide)⟩

end TCGATools
